import Mathlib

/-!
A shallow embedding of `goflags.go` (package goflags): an alias-aware flag
registry layered on the Go standard `flag` package, with YAML config-file
merging and deduplicated usage / default-config rendering.

Definitions are translated from the source file. External collaborators are
modelled explicitly: the `flag` package's global flag table becomes a
`GlobalState` (flags list plus a heap of value holders, Go pointers being
indices), and the YAML codec is modelled on the line-structured scalar
subset these documents use (the marshal direction is a parameter).

Two pieces of repository code are not under src/ and are modelled from the
spec where used: the `InsertionOrderedMap` implementation (spec §4.1) and
the `StringSlice` holder type (spec §4.2/§4.4).
-/

namespace Goflags

/-! ### Go string primitives -/

/-- Go `strings.ToLower` (ASCII case folding; `Char.toLower` lowers only
A-Z, adequate for the usage strings considered here). -/
def goToLower (s : String) : String := String.mk (s.data.map Char.toLower)

/-- Go `strings.EqualFold`: case-insensitive string equality (ASCII fold). -/
def strEqFold (s t : String) : Bool := s.data.map Char.toLower == t.data.map Char.toLower

/-- Go `strings.TrimSpace` (ASCII whitespace; `Char.isWhitespace` covers
space, tab, newline and carriage return, adequate for the names here). -/
def goTrimSpace (s : String) : String :=
  String.mk (((s.data.dropWhile Char.isWhitespace).reverse.dropWhile Char.isWhitespace).reverse)

/-- goflags `isNotBlank` (line 369): `len(strings.TrimSpace(value)) != 0`. -/
def isNotBlank (value : String) : Bool := (goTrimSpace value).length != 0

/-- Go `bytes.TrimSuffix`: if `s` ends with `suffix`, drop that one suffix
occurrence entirely; otherwise return `s` unchanged. -/
def goTrimSuffix (s suffix : String) : String :=
  if suffix.data.isSuffixOf s.data then
    String.mk (s.data.take (s.data.length - suffix.data.length))
  else s

/-- Go `strings.HasPrefix`-style check, used only to state theorems. -/
def strStartsWith (s t : String) : Bool := t.data.isPrefixOf s.data

/-- Go `strings.HasSuffix`-style check, used only to state theorems. -/
def strEndsWith (s t : String) : Bool := t.data.isSuffixOf s.data

/-- Go `strconv.FormatBool`. -/
def formatBool (b : Bool) : String := if b then "true" else "false"

/-- Decimal digit run to a number (no digits is a parse failure). -/
def decDigits (l : List Char) : Option Nat :=
  match l with
  | [] => none
  | _ => if l.all Char.isDigit then
           some (l.foldl (fun acc c => acc * 10 + (c.toNat - 48)) 0)
         else none

/-- Go `strconv.Atoi` (arbitrary precision; overflow is out of model). -/
def goParseInt (s : String) : Option Int :=
  match s.data with
  | '-' :: rest => (decDigits rest).map (fun n => -(n : Int))
  | '+' :: rest => (decDigits rest).map (fun n => (n : Int))
  | l => (decDigits l).map (fun n => (n : Int))

/-- Go `strconv.Itoa`. -/
def goItoa (n : Int) : String := toString n

/-- Go `strconv.ParseBool`: accepts 1/t/T/TRUE/true/True and
0/f/F/FALSE/false/False. -/
def goParseBool (s : String) : Option Bool :=
  if s = "1" ∨ s = "t" ∨ s = "T" ∨ s = "TRUE" ∨ s = "true" ∨ s = "True" then some true
  else if s = "0" ∨ s = "f" ∨ s = "F" ∨ s = "FALSE" ∨ s = "false" ∨ s = "False" then some false
  else none

/-! ### Flag value holders (`flag.Value`) -/

/-- The dynamic value of a registered flag's `flag.Value` holder: the four
holder types this library binds (Go `flag.stringValue`, `flag.boolValue`,
`flag.intValue`, and goflags' own `StringSlice`). -/
inductive FlagValue where
  | str (s : String)
  | boolean (b : Bool)
  | intV (n : Int)
  | strSlice (xs : List String)
  deriving DecidableEq, Repr

/-- Modelled from the spec: the `StringSlice` holder type lives in a
repository file that is not under src/. Its `String()` is the Go `fmt %v`
rendering of a string slice: a space-separated bracketed list. -/
def stringSliceString (xs : List String) : String :=
  "[" ++ String.intercalate " " xs ++ "]"

/-- `flag.Value.String()` per holder type: `stringValue` yields the string,
`boolValue` uses `strconv.FormatBool`, `intValue` uses `strconv.Itoa`, and
`StringSlice` renders per `stringSliceString`. -/
def valueString : FlagValue → String
  | .str s => s
  | .boolean b => formatBool b
  | .intV n => goItoa n
  | .strSlice xs => stringSliceString xs

/-- `flag.Value.Set(s)` per holder type. `boolValue` / `intValue` parse via
strconv and return an error on failure; every call site in goflags.go
discards that error, so a failed parse leaves the holder unchanged here.
`StringSlice.Set` appends (modelled from the spec: slice flags accumulate
via repeated `Set`). -/
def setValue (v : FlagValue) (s : String) : FlagValue :=
  match v with
  | .str _ => .str s
  | .boolean b =>
    match goParseBool s with
    | some b' => .boolean b'
    | none => .boolean b
  | .intV n =>
    match goParseInt s with
    | some n' => .intV n'
    | none => .intV n
  | .strSlice xs => .strSlice (xs ++ [s])

/-- The Go dynamic type name of a holder, as produced by
`reflect.TypeOf(currentFlag.Value).String()` (line 374). -/
def typeNameOf : FlagValue → String
  | .str _ => "*flag.stringValue"
  | .boolean _ => "*flag.boolValue"
  | .intV _ => "*flag.intValue"
  | .strSlice _ => "*goflags.StringSlice"

/-- `reflect.New(valueType.Elem())` in `isZeroValue` (lines 449-461): a
freshly constructed zero value of the same holder type (all four holder
types are pointers, so the `Ptr` branch is taken). -/
def zeroSameType : FlagValue → FlagValue
  | .str _ => .str ""
  | .boolean _ => .boolean false
  | .intV _ => .intV 0
  | .strSlice _ => .strSlice []

/-! ### The external `flag` package's global state -/

/-- One entry of the `flag.CommandLine` flag table: registered name, a
reference to the bound value holder (heap index), the recorded default
string `DefValue`, and the usage string. -/
structure FlagEntry where
  name : String
  holder : Nat
  defValue : String
  usage : String
  deriving DecidableEq, Repr

/-- The `flag` package's state: the registered flags plus a heap of value
holders (Go pointers modelled as indices). Registering the same name twice
makes Go's flag package panic, so entries are name-distinct wherever it
matters; lookups take the latest entry, matching map overwrite. -/
structure GlobalState where
  flags : List FlagEntry
  heap : Nat → FlagValue

/-- Pointer write into the holder heap. -/
def heapUpdate (heap : Nat → FlagValue) (h : Nat) (v : FlagValue) : Nat → FlagValue :=
  fun h' => if h' = h then v else heap h'

/-- `flag.CommandLine.Lookup(name)`. -/
def lookupFlag (flags : List FlagEntry) (name : String) : Option FlagEntry :=
  flags.foldl (fun acc e => if e.name = name then some e else acc) none

/-- What the parser does when `-name value` occurs on the command line (or
`flag.CommandLine.Set`): look the name up and `Set` its holder. -/
def setViaName (st : GlobalState) (name s : String) : GlobalState :=
  match lookupFlag st.flags name with
  | some e => { st with heap := heapUpdate st.heap e.holder (setValue (st.heap e.holder) s) }
  | none => st

/-- Go `flag.StringVar(p, name, value, usage)`: initializes the holder to
the default and records the flag with `DefValue = value`. -/
def flagStringVar (st : GlobalState) (field : Nat) (name value usage : String) : GlobalState :=
  { flags := st.flags ++ [{ name := name, holder := field, defValue := value, usage := usage }],
    heap := heapUpdate st.heap field (.str value) }

/-- Go `flag.Var(value, name, usage)`: records the flag with
`DefValue = value.String()` taken at registration time; the holder itself
is not modified. -/
def flagVar (st : GlobalState) (field : Nat) (name usage : String) : GlobalState :=
  { flags := st.flags ++ [{ name := name, holder := field,
                            defValue := valueString (st.heap field), usage := usage }],
    heap := st.heap }

/-! ### Descriptors and the ordered alias map -/

/-- The `interface{}` stored in `flagData.defaultValue`: every registration
in goflags.go stores either a plain string or a `flag.Value` reference. -/
inductive DefaultVal where
  | str (s : String)
  | value (h : Nat)
  deriving DecidableEq, Repr

/-- goflags `flagData` (lines 28-33). Its `Hash` is a deterministic content
hash over all fields (structhash); hash equality is modelled as content
equality of the record — identical contents collide exactly as in the code,
and distinct contents are assumed not to collide. -/
structure flagData where
  usage : String
  short : String
  long : String
  defaultValue : DefaultVal
  deriving DecidableEq, Repr

/-- Modelled from the spec: the repository's `InsertionOrderedMap` (its file
is not under src/). Per §4.1/§3 it maps flag-name keys to shared `flagData`
references preserving first-insertion key order; Go pointers to `flagData`
records are modelled as indices into an arena of allocations. -/
structure InsertionOrderedMap where
  keys : List String
  idx : String → Option Nat
  arena : List flagData

/-- `newInsertionOrderedMap` (lines 40-45). -/
def emptyOrderedMap : InsertionOrderedMap :=
  { keys := [], idx := fun _ => none, arena := [] }

/-- Modelled from the spec (§4.1): `Set(key, descriptor)` inserts or
overwrites; if the key is new it is appended to the order sequence. -/
def InsertionOrderedMap.Set (m : InsertionOrderedMap) (key : String) (d : Nat) : InsertionOrderedMap :=
  { keys := if (m.idx key).isNone then m.keys ++ [key] else m.keys,
    idx := fun k => if k = key then some d else m.idx k,
    arena := m.arena }

/-- Allocation of a `&flagData{...}` record: append to the arena and return
the new reference. -/
def InsertionOrderedMap.alloc (m : InsertionOrderedMap) (d : flagData) : InsertionOrderedMap × Nat :=
  ({ m with arena := m.arena ++ [d] }, m.arena.length)

/-- Modelled from the spec (§4.1): `forEach(visit)` invokes
`visit(key, values[key])` for every key in insertion order — here, the list
of visited pairs. -/
def InsertionOrderedMap.forEachList (m : InsertionOrderedMap) : List (String × flagData) :=
  m.keys.filterMap (fun k => (m.idx k).bind (fun i => (m.arena[i]?).map (fun d => (k, d))))

/-- goflags `FlagSet` (lines 22-26). -/
structure FlagSet where
  Marshal : Bool
  description : String
  flagKeys : InsertionOrderedMap

/-- `NewFlagSet` (lines 36-38). -/
def NewFlagSet : FlagSet :=
  { Marshal := false, description := "", flagKeys := emptyOrderedMap }

/-! ### Registration operations -/

/-- goflags `StringVarP` (lines 214-226): register with the primitive parser
under the short then the long name, then insert one shared descriptor under
both keys. `field` is the caller's bound string variable. -/
def StringVarP (fs : FlagSet) (st : GlobalState) (field : Nat)
    (long short defaultValue usage : String) : FlagSet × GlobalState :=
  let st1 := flagStringVar st field short defaultValue usage
  let st2 := flagStringVar st1 field long defaultValue usage
  let d : flagData := { usage := usage, short := short, long := long,
                        defaultValue := .str defaultValue }
  let ar := fs.flagKeys.alloc d
  ({ fs with flagKeys := (ar.1.Set short ar.2).Set long ar.2 }, st2)

/-- goflags `StringVar` (lines 229-238): long name only; the descriptor's
short field stays at Go's zero value `""`. -/
def StringVar (fs : FlagSet) (st : GlobalState) (field : Nat)
    (long defaultValue usage : String) : FlagSet × GlobalState :=
  let st1 := flagStringVar st field long defaultValue usage
  let d : flagData := { usage := usage, short := "", long := long,
                        defaultValue := .str defaultValue }
  let ar := fs.flagKeys.alloc d
  ({ fs with flagKeys := ar.1.Set long ar.2 }, st1)

/-- goflags `VarP` (lines 177-189): a generic `flag.Value` registration
under short and long names; the descriptor's defaultValue holds the
`flag.Value` reference itself. -/
def VarP (fs : FlagSet) (st : GlobalState) (field : Nat)
    (long short usage : String) : FlagSet × GlobalState :=
  let st1 := flagVar st field short usage
  let st2 := flagVar st1 field long usage
  let d : flagData := { usage := usage, short := short, long := long,
                        defaultValue := .value field }
  let ar := fs.flagKeys.alloc d
  ({ fs with flagKeys := (ar.1.Set short ar.2).Set long ar.2 }, st2)

/-- The `*StringSlice` pointee of a slice registration's field (the caller
always passes a `*StringSlice`, so other holder shapes cannot occur). -/
def asStringSlice : FlagValue → List String
  | .strSlice xs => xs
  | _ => []

/-- goflags `createStringArrayDefaultValue` (lines 329-342): the bracketed,
comma-joined, quoted element list of the current slice contents. -/
def createStringArrayDefaultValue (xs : List String) : String :=
  "[" ++ String.intercalate ", " (xs.map (fun k => "\"" ++ k ++ "\"")) ++ "]"

/-- goflags `StringSliceVarP` (lines 295-311): first `Set` every default
element into the target slice holder, THEN register with the primitive
parser under both names (so `DefValue` records the pre-populated slice),
then insert one shared descriptor whose defaultValue is the bracketed
rendering of the now-current slice contents. -/
def StringSliceVarP (fs : FlagSet) (st : GlobalState) (field : Nat)
    (long short : String) (defaultValue : List String) (usage : String) :
    FlagSet × GlobalState :=
  let populated := defaultValue.foldl (fun acc item => setValue acc item) (st.heap field)
  let st0 : GlobalState := { st with heap := heapUpdate st.heap field populated }
  let st1 := flagVar st0 field short usage
  let st2 := flagVar st1 field long usage
  let d : flagData := { usage := usage, short := short, long := long,
                        defaultValue := .str (createStringArrayDefaultValue (asStringSlice (st0.heap field))) }
  let ar := fs.flagKeys.alloc d
  ({ fs with flagKeys := (ar.1.Set short ar.2).Set long ar.2 }, st2)

/-- goflags `StringSliceVar` (lines 314-327): single-name variant. -/
def StringSliceVar (fs : FlagSet) (st : GlobalState) (field : Nat)
    (long : String) (defaultValue : List String) (usage : String) :
    FlagSet × GlobalState :=
  let populated := defaultValue.foldl (fun acc item => setValue acc item) (st.heap field)
  let st0 : GlobalState := { st with heap := heapUpdate st.heap field populated }
  let st1 := flagVar st0 field long usage
  let d : flagData := { usage := usage, short := "", long := long,
                        defaultValue := .str (createStringArrayDefaultValue (asStringSlice (st0.heap field))) }
  let ar := fs.flagKeys.alloc d
  ({ fs with flagKeys := ar.1.Set long ar.2 }, st1)

/-! ### Config-file merging (`readConfigFile`, lines 139-174) -/

/-- A decoded YAML value as yaml.v2 produces into `map[string]interface{}`:
the cases the merge switch distinguishes (string, bool, int, sequence) plus
`other` for any other decoded type, which the switch ignores. -/
inductive YamlValue where
  | str (s : String)
  | boolVal (b : Bool)
  | intVal (n : Int)
  | listVal (vs : List YamlValue)
  | other

/-- `data[fl.Name]` on the decoded document (Go map lookup). -/
def docLookup (doc : List (String × YamlValue)) (name : String) : Option YamlValue :=
  List.lookup name doc

/-- The type switch of `readConfigFile` (lines 156-170): string sets
directly, bool and int are formatted to strings and set, a sequence sets
each element that is itself a string (others silently skipped), anything
else does nothing. -/
def applyDocItem (v : FlagValue) (item : YamlValue) : FlagValue :=
  match item with
  | .str s => setValue v s
  | .boolVal b => setValue v (formatBool b)
  | .intVal n => setValue v (goItoa n)
  | .listVal vs =>
    vs.foldl (fun acc x =>
      match x with
      | .str s => setValue acc s
      | _ => acc) v
  | .other => v

/-- The body of the `VisitAll` closure in `readConfigFile` (lines 151-172):
overwrite from the document only when the document has the flag's name AND
the flag's current live string value equals `DefValue` case-insensitively. -/
def visitFlagMerge (doc : List (String × YamlValue)) (heap : Nat → FlagValue)
    (fl : FlagEntry) : Nat → FlagValue :=
  match docLookup doc fl.name with
  | none => heap
  | some item =>
    if strEqFold fl.defValue (valueString (heap fl.holder)) then
      heapUpdate heap fl.holder (applyDocItem (heap fl.holder) item)
    else heap

/-- Stable insertion of a flag into a name-sorted list. -/
def insertSorted (e : FlagEntry) : List FlagEntry → List FlagEntry
  | [] => [e]
  | x :: xs => if e.name ≤ x.name then e :: x :: xs else x :: insertSorted e xs

/-- `flag.CommandLine.VisitAll` visits flags in lexicographic name order
(insertion sort over the registered entries). -/
def visitAllOrder (flags : List FlagEntry) : List FlagEntry :=
  flags.foldr insertSorted []

/-- The whole `VisitAll` pass of `readConfigFile` over the decoded doc. -/
def mergeVisitAll (doc : List (String × YamlValue)) (flags : List FlagEntry)
    (heap : Nat → FlagValue) : Nat → FlagValue :=
  (visitAllOrder flags).foldl (visitFlagMerge doc) heap

/-! ### The YAML codec on the documents this program reads -/

/-- Split a character sequence into lines at every newline character (the
final, unterminated line included, as an empty line for trailing text). -/
def chLines : List Char → List (List Char)
  | [] => [[]]
  | c :: rest =>
    if c = '\n' then [] :: chLines rest
    else
      match chLines rest with
      | [] => [[c]]
      | l :: ls => (c :: l) :: ls

/-- Leading blanks of a YAML scalar after the colon. -/
def dropSpaces : List Char → List Char
  | ' ' :: rest => dropSpaces rest
  | l => l

/-- Split a line at its first colon into key and (space-trimmed) value. -/
def splitColon : List Char → Option (List Char × List Char)
  | [] => none
  | c :: rest =>
    if c = ':' then some ([], dropSpaces rest)
    else (splitColon rest).map (fun p => (c :: p.1, p.2))

/-- A YAML scalar, typed the way yaml.v2 decodes into `interface{}`:
single-quoted text is a string, `true`/`false` booleans, decimal literals
ints, an empty value is null (`other` — no switch case fires), anything
else a plain string. -/
def parseScalar (v : List Char) : YamlValue :=
  match v with
  | [] => YamlValue.other
  | _ =>
    if v.head? = some '\'' ∧ v.getLast? = some '\'' ∧ v.length ≥ 2 then
      .str (String.mk ((v.drop 1).dropLast))
    else if String.mk v = "true" then .boolVal true
    else if String.mk v = "false" then .boolVal false
    else
      match goParseInt (String.mk v) with
      | some n => .intVal n
      | none => .str (String.mk v)

/-- One line of a config document: `#` comment lines and blank lines carry
no mapping entry; a `key: value` line carries one. -/
def parseLine (l : List Char) : Option (String × YamlValue) :=
  match l with
  | [] => none
  | c :: _ =>
    if c = '#' then none
    else (splitColon l).map (fun p => (String.mk p.1, parseScalar p.2))

/-- The YAML codec's decode direction on the line-structured scalar subset
these config documents use: one top-level `key: value` entry per line.
Decoding a document with no mapping entries at all (e.g. only comments and
blank lines) fails exactly as `yaml.NewDecoder(..).Decode` does on an
effectively empty document: with EOF. -/
def decodeYaml (contents : String) : Except String (List (String × YamlValue)) :=
  let ps := (chLines contents.data).filterMap parseLine
  if ps.isEmpty then .error "EOF" else .ok ps

/-- goflags `readConfigFile` (lines 139-174), with the file's contents
passed directly (opening the file is I/O outside this model). A decode
failure is wrapped and returned and the state is untouched; otherwise the
`VisitAll` merge pass runs. Returns the new state and the error, if any. -/
def readConfigFile (contents : String) (st : GlobalState) : GlobalState × Option String :=
  match decodeYaml contents with
  | .error e => (st, some ("could not unmarshal config file: " ++ e))
  | .ok doc => ({ st with heap := mergeVisitAll doc st.flags st.heap }, none)

/-- goflags `MergeConfigFile` (lines 60-62) forwards to `readConfigFile`. -/
def MergeConfigFile (contents : String) (st : GlobalState) : GlobalState × Option String :=
  readConfigFile contents st

/-! ### Default-config generation (`generateDefaultConfig`, lines 88-133) -/

/-- The two comment header lines written first (lines 91-93); `prog` is
`path.Base(os.Args[0])`, passed as a parameter of the model. -/
def headerStr (prog : String) : String :=
  "# " ++ prog ++ " config file\n# generated by https://github.com/projectdiscovery/goflags\n\n"

/-- One commented entry of the default config (lines 117-129): the
lower-cased usage as a comment, then `#long: defaultValue`. The visited key
is a parameter of the `forEach` closure but is never used — the written key
is always the descriptor's long name. A string defaultValue is written
literally; a `flag.Value` defaultValue is written via its `String()`; the
`interface{}` holds nothing else in this program. -/
def configEntryString (_key : String) (data : flagData) (heap : Nat → FlagValue) : String :=
  "# " ++ goToLower data.usage ++ "\n#" ++ data.long ++ ": " ++
    (match data.defaultValue with
     | .str s => s
     | .value h => valueString (heap h)) ++ "\n\n"

/-- The commented-config `forEach` loop (lines 110-130): walk the visited
pairs carrying the `hashes` set of already-emitted descriptors (content
hash modelled as content equality); the writes into the single buffer are
the concatenation of the emitted entries. -/
def configEntriesAux (heap : Nat → FlagValue) :
    List (String × flagData) → List flagData → String
  | [], _ => ""
  | (k, d) :: rest, hashes =>
    if d ∈ hashes then configEntriesAux heap rest hashes
    else configEntryString k d heap ++ configEntriesAux heap rest (d :: hashes)

/-- The flat map built in Marshal mode (lines 97-101): every key of the
ordered map, mapped to its descriptor's defaultValue. -/
def marshalMap (fs : FlagSet) : List (String × DefaultVal) :=
  fs.flagKeys.forEachList.map (fun kd => (kd.1, kd.2.defaultValue))

/-- goflags `generateDefaultConfig` (lines 88-133). The external
`yaml.Marshal` is a parameter; when `Marshal` is set and it succeeds its
bytes follow the header untrimmed, on its failure (or with `Marshal`
unset) the commented entries are emitted and one trailing `"\n\n"` is
trimmed from the buffer. The function is total: no error is ever
returned. -/
def generateDefaultConfig (yamlMarshal : List (String × DefaultVal) → Except String String)
    (fs : FlagSet) (prog : String) (st : GlobalState) : String :=
  let header := headerStr prog
  let commented := goTrimSuffix (header ++ configEntriesAux st.heap fs.flagKeys.forEachList []) "\n\n"
  if fs.Marshal then
    match yamlMarshal (marshalMap fs) with
    | .ok bs => header ++ bs
    | .error _ => commented
  else commented

/-! ### Usage rendering (`usageFunc` and helpers, lines 344-461) -/

/-- The skip-if-hash-already-seen walk shared verbatim by `usageFunc`
(lines 354-361) and the commented-config loop (lines 110-115): the visited
pairs that survive deduplication, in order. -/
def dedupPairs : List (String × flagData) → List flagData → List (String × flagData)
  | [], _ => []
  | (k, d) :: rest, hashes =>
    if d ∈ hashes then dedupPairs rest hashes
    else (k, d) :: dedupPairs rest (d :: hashes)

/-- The descriptors `usageFunc` (lines 344-367) actually renders, in
order: the `forEach` walk with the `hashes` dedup check. (The per-flag
rendering itself is `createUsageString` over these.) -/
def usageVisited (fs : FlagSet) : List flagData :=
  (dedupPairs fs.flagKeys.forEachList []).map Prod.snd

/-- The descriptors the commented-config loop emits, in order. -/
def configEmitted (fs : FlagSet) : List flagData :=
  (dedupPairs fs.flagKeys.forEachList []).map Prod.snd

/-- Outcome of Go code that may panic. -/
inductive PanicOr (α : Type) where
  | panicked (msg : String)
  | ok (a : α)
  deriving DecidableEq, Repr

/-- goflags `createUsageFlagNames` (lines 426-445): collect the non-blank
alias names prefixed with a dash; with no valid name at all the function
panics. -/
def createUsageFlagNames (data : flagData) : PanicOr String :=
  let flagNames := "  " ++ "\t"
  let validFlags :=
    (if isNotBlank data.short then ["-" ++ data.short] else []) ++
    (if isNotBlank data.long then ["-" ++ data.long] else [])
  if validFlags.length = 0 then .panicked "CLI arguments cannot be empty."
  else .ok (flagNames ++ String.intercalate ", " validFlags)

/-- goflags `isZeroValue` (lines 449-461): build a zero value of the flag's
holder type and compare the given string to its `String()`. -/
def isZeroValue (holderVal : FlagValue) (value : String) : Bool :=
  value == valueString (zeroSameType holderVal)

/-- `%v` of the descriptor's `interface{}` defaultValue: a string prints
itself, a `flag.Value` prints via its `String()`. -/
def renderDefaultVal (heap : Nat → FlagValue) : DefaultVal → String
  | .str s => s
  | .value h => valueString (heap h)

/-- Go `%q` — strconv-style quoting; adequate for strings containing no
characters that need escaping (all inputs considered here). -/
def goQuote (s : String) : String := "\"" ++ s ++ "\""

/-- goflags `createUsageDefaultValue` (lines 383-396): emit the
parenthesized default suffix only when `isZeroValue(currentFlag,
currentFlag.DefValue)` is false; `%q` for `*flag.stringValue`, `%v`
otherwise, applied to the descriptor's defaultValue. -/
def createUsageDefaultValue (data : flagData) (fl : FlagEntry)
    (heap : Nat → FlagValue) : String :=
  if !(isZeroValue (heap fl.holder) fl.defValue) then
    if typeNameOf (heap fl.holder) = "*flag.stringValue" then
      " (default " ++ goQuote (renderDefaultVal heap data.defaultValue) ++ ")"
    else
      " (default " ++ renderDefaultVal heap data.defaultValue ++ ")"
  else ""

/-! ### Auxiliary notions used only to state and prove theorems -/

/-- Whether a key's descriptor reference points inside the arena (the Go
invariant that a stored `*flagData` refers to an allocated record, which
holds for every map built by the registration operations). -/
def idxInArena (m : InsertionOrderedMap) (k : String) : Bool :=
  match m.idx k with
  | some i => decide (i < m.arena.length)
  | none => true

/-- No newline character occurs in the string. -/
def noNewlineStr (s : String) : Bool := decide ('\n' ∉ s.data)

/-- The two header comment lines (without the trailing blank line), used to
state what a generated document begins with. -/
def headerPrefixStr (prog : String) : String :=
  "# " ++ prog ++ " config file\n# generated by https://github.com/projectdiscovery/goflags"

/-- External yaml codec and concrete registry used by the Marshal-mode
round-trip counterexample: the marshal direction renders a map of string
values the way yaml.v2 does (one `key: 'value'` line each; our inputs need
no escaping), failing on a non-string value. -/
def c4Marshal : List (String × DefaultVal) → Except String String :=
  fun ps => Except.ok (String.join (ps.map (fun p =>
    p.1 ++ ": '" ++ (match p.2 with | .str s => s | .value _ => "") ++ "'\n")))

/-- A registry with a single string-slice flag with defaults `["a","b"]`
and no command-line overrides, for the round-trip counterexample. -/
def c4Reg : FlagSet × GlobalState :=
  StringSliceVar NewFlagSet { flags := [], heap := fun _ => FlagValue.strSlice [] }
    0 "slice" ["a", "b"] "items"

/-- Join text lines, terminating each with a newline. -/
def joinLinesCh (ls : List (List Char)) : List Char :=
  (ls.map (fun l => l ++ ['\n'])).flatten

/-- The three text lines of one commented config entry. -/
def configEntryLines (d : flagData) (heap : Nat → FlagValue) : List (List Char) :=
  [("# " ++ goToLower d.usage).data,
   ("#" ++ d.long ++ ": " ++ renderDefaultVal heap d.defaultValue).data,
   []]

/-- The text lines of the commented default config document (before the
final trim). -/
def configDocLines (fs : FlagSet) (heap : Nat → FlagValue) (prog : String) : List (List Char) :=
  ("# " ++ prog ++ " config file").data ::
  ("# generated by https://github.com/projectdiscovery/goflags").data ::
  [] ::
  ((dedupPairs fs.flagKeys.forEachList []).map (fun kd => configEntryLines kd.2 heap)).flatten

/-! ### Helper lemmas -/

theorem foldl_setValue_strSlice (defaults : List String) (xs : List String) :
    defaults.foldl (fun acc item => setValue acc item) (FlagValue.strSlice xs) =
      FlagValue.strSlice (xs ++ defaults) := by
  induction defaults generalizing xs with
  | nil => simp
  | cons d rest ih =>
    have h1 : List.foldl (fun acc item => setValue acc item) (FlagValue.strSlice xs) (d :: rest)
        = List.foldl (fun acc item => setValue acc item) (FlagValue.strSlice (xs ++ [d])) rest := rfl
    rw [h1, ih, List.append_assoc]
    rfl

theorem lookupFlag_append (l1 l2 : List FlagEntry) (n : String) :
    lookupFlag (l1 ++ l2) n = List.foldl
      (fun acc e => if e.name = n then some e else acc) (lookupFlag l1 n) l2 := by
  simp [lookupFlag, List.foldl_append]

theorem insertSorted_perm (e : FlagEntry) : ∀ (l : List FlagEntry),
    (insertSorted e l).Perm (e :: l) := by
  intro l
  induction l with
  | nil => exact List.Perm.refl _
  | cons x xs ih =>
    rw [insertSorted]
    split
    · exact List.Perm.refl _
    · exact (List.Perm.cons x ih).trans (List.Perm.swap e x xs)

theorem visitAllOrder_perm : ∀ (flags : List FlagEntry),
    (visitAllOrder flags).Perm flags := by
  intro flags
  induction flags with
  | nil => exact List.Perm.refl _
  | cons f fl ih =>
    have : visitAllOrder (f :: fl) = insertSorted f (visitAllOrder fl) := rfl
    rw [this]
    exact (insertSorted_perm f (visitAllOrder fl)).trans (List.Perm.cons f ih)

/-! ### C2 — alias sharing -/

/-- C2: a `*VarP` registration maps both the short and the long name to the
identical arena descriptor (a shared reference, not a copy), registers both
names on the same value holder, and setting the flag through either alias
updates that same bound value. Shown for `StringVarP` (lines 214-226) and
for the generic `VarP` (lines 177-189). -/
theorem StringVarP_VarP_alias_sharing (fs : FlagSet) (st : GlobalState) (field : Nat)
    (long short defaultValue usage : String) :
    (let p := StringVarP fs st field long short defaultValue usage
     (p.1.flagKeys.idx short = some fs.flagKeys.arena.length ∧
      p.1.flagKeys.idx long = some fs.flagKeys.arena.length) ∧
     p.1.flagKeys.arena[fs.flagKeys.arena.length]? =
       some { usage := usage, short := short, long := long, defaultValue := .str defaultValue } ∧
     ((lookupFlag p.2.flags short).map FlagEntry.holder = some field ∧
      (lookupFlag p.2.flags long).map FlagEntry.holder = some field) ∧
     (∀ s, (setViaName p.2 short s).heap field = setValue (p.2.heap field) s ∧
           (setViaName p.2 long s).heap field = setValue (p.2.heap field) s)) ∧
    (let q := VarP fs st field long short usage
     (q.1.flagKeys.idx short = some fs.flagKeys.arena.length ∧
      q.1.flagKeys.idx long = some fs.flagKeys.arena.length) ∧
     ((lookupFlag q.2.flags short).map FlagEntry.holder = some field ∧
      (lookupFlag q.2.flags long).map FlagEntry.holder = some field) ∧
     (∀ s, (setViaName q.2 short s).heap field = setValue (q.2.heap field) s ∧
           (setViaName q.2 long s).heap field = setValue (q.2.heap field) s)) := by
  constructor
  · refine ⟨⟨?_, ?_⟩, ?_, ⟨?_, ?_⟩, ?_⟩
    · by_cases hls : short = long <;>
        simp [StringVarP, InsertionOrderedMap.Set, InsertionOrderedMap.alloc, hls]
    · simp [StringVarP, InsertionOrderedMap.Set, InsertionOrderedMap.alloc]
    · simp [StringVarP, InsertionOrderedMap.Set, InsertionOrderedMap.alloc]
    · by_cases hls : long = short <;>
        simp [StringVarP, flagStringVar, lookupFlag, List.foldl_append, hls]
    · simp [StringVarP, flagStringVar, lookupFlag, List.foldl_append]
    · intro s
      constructor <;> by_cases hls : long = short <;>
        simp [StringVarP, flagStringVar, setViaName, lookupFlag, List.foldl_append,
              heapUpdate, hls]
  · refine ⟨⟨?_, ?_⟩, ⟨?_, ?_⟩, ?_⟩
    · by_cases hls : short = long <;>
        simp [VarP, InsertionOrderedMap.Set, InsertionOrderedMap.alloc, hls]
    · simp [VarP, InsertionOrderedMap.Set, InsertionOrderedMap.alloc]
    · by_cases hls : long = short <;>
        simp [VarP, flagVar, lookupFlag, List.foldl_append, hls]
    · simp [VarP, flagVar, lookupFlag, List.foldl_append]
    · intro s
      constructor <;> by_cases hls : long = short <;>
        simp [VarP, flagVar, setViaName, lookupFlag, List.foldl_append, heapUpdate, hls]

/-! ### C6 — blank alias names make usage rendering panic -/

/-- C6 is refuted as stated: a descriptor with both alias names blank makes
`createUsageFlagNames` panic (terminating the process) rather than report a
recoverable failure. -/
theorem createUsageFlagNames_blank_cex :
    createUsageFlagNames { usage := "some usage", short := "", long := "", defaultValue := .str "" } =
      PanicOr.panicked "CLI arguments cannot be empty." := by
  decide

/-- C6 amended: when both the short and the long name are blank
(whitespace-only), `createUsageFlagNames` panics with the message
"CLI arguments cannot be empty." — a crash, not a recoverable failure
signal (lines 426-445). -/
theorem createUsageFlagNames_blank_panics (data : flagData)
    (hs : isNotBlank data.short = false) (hl : isNotBlank data.long = false) :
    createUsageFlagNames data = PanicOr.panicked "CLI arguments cannot be empty." := by
  simp [createUsageFlagNames, hs, hl]

theorem createUsageFlagNames_blank_panics_witness :
    createUsageFlagNames { usage := "u", short := " ", long := "  ", defaultValue := .str "" } =
      PanicOr.panicked "CLI arguments cannot be empty." :=
  createUsageFlagNames_blank_panics
    { usage := "u", short := " ", long := "  ", defaultValue := .str "" }
    (by decide) (by decide)

/-! ### C7 — the usage default-value suffix tests DefValue, not the live value -/

/-- C7 is refuted as stated: for a string flag with compiled-in default ""
whose live value was set to "x", the current stringified value differs from
the zero instance's, yet no default suffix is emitted — the code compares
`currentFlag.DefValue` (line 384), not the current live value. -/
theorem createUsageDefaultValue_current_cex :
    createUsageDefaultValue { usage := "u", short := "", long := "n", defaultValue := .str "" }
        { name := "n", holder := 0, defValue := "", usage := "u" }
        (fun _ => FlagValue.str "x") = "" ∧
    valueString ((fun _ => FlagValue.str "x") 0) ≠
      valueString (zeroSameType ((fun _ => FlagValue.str "x") 0)) := by
  exact ⟨rfl, by decide⟩

theorem default_suffix_ne_empty (a : String) :
    " (default " ++ a ++ ")" ≠ "" := by
  intro h
  have := congrArg String.data h
  simp [String.data_append] at this

/-- C7 amended: the parenthesized default suffix is emitted exactly when the
flag's recorded default string `DefValue` (not its current live value)
differs from the stringified zero instance of the holder's type; when
emitted it quotes the descriptor's default for string-typed flags and uses
the generic format otherwise (lines 383-396, 449-461). -/
theorem createUsageDefaultValue_iff (data : flagData) (fl : FlagEntry)
    (heap : Nat → FlagValue) :
    (createUsageDefaultValue data fl heap = "" ↔
      fl.defValue = valueString (zeroSameType (heap fl.holder))) ∧
    (fl.defValue ≠ valueString (zeroSameType (heap fl.holder)) →
      createUsageDefaultValue data fl heap =
        (if typeNameOf (heap fl.holder) = "*flag.stringValue" then
          " (default " ++ goQuote (renderDefaultVal heap data.defaultValue) ++ ")"
        else " (default " ++ renderDefaultVal heap data.defaultValue ++ ")")) := by
  constructor
  · constructor
    · intro h
      by_contra hne
      rw [createUsageDefaultValue] at h
      rw [if_pos] at h
      · split at h
        · exact default_suffix_ne_empty _ (by rw [goQuote] at h; rw [← String.append_assoc] at h ⊢; exact h)
        · exact default_suffix_ne_empty _ h
      · simp [isZeroValue, hne]
    · intro h
      simp [createUsageDefaultValue, isZeroValue, h]
  · intro hne
    rw [createUsageDefaultValue, if_pos]
    simp [isZeroValue, hne]

theorem createUsageDefaultValue_iff_witness :
    (createUsageDefaultValue { usage := "u", short := "p", long := "port", defaultValue := .str "80" }
        { name := "port", holder := 3, defValue := "80", usage := "u" }
        (fun _ => FlagValue.intV 80) = "" ↔
      ("80" : String) = valueString (zeroSameType (FlagValue.intV 80))) ∧
    createUsageDefaultValue { usage := "u", short := "p", long := "port", defaultValue := .str "80" }
        { name := "port", holder := 3, defValue := "80", usage := "u" }
        (fun _ => FlagValue.intV 80) =
      " (default " ++ renderDefaultVal (fun _ => FlagValue.intV 80) (.str "80") ++ ")" := by
  have h := createUsageDefaultValue_iff
    { usage := "u", short := "p", long := "port", defaultValue := .str "80" }
    { name := "port", holder := 3, defValue := "80", usage := "u" }
    (fun _ => FlagValue.intV 80)
  refine ⟨h.1, ?_⟩
  have h2 := h.2 (by decide)
  simpa using h2

/-! ### C1 — merge precedence -/

theorem visitFlagMerge_eq (doc : List (String × YamlValue))
    (heap : Nat → FlagValue) (fl : FlagEntry) :
    visitFlagMerge doc heap fl =
      (match docLookup doc fl.name with
       | none => heap
       | some item =>
         if strEqFold fl.defValue (valueString (heap fl.holder)) = true then
           heapUpdate heap fl.holder (applyDocItem (heap fl.holder) item)
         else heap) := rfl

theorem visitFlagMerge_untouched (doc : List (String × YamlValue))
    (heap : Nat → FlagValue) (fl : FlagEntry) (h : Nat)
    (hcase : fl.holder = h → strEqFold fl.defValue (valueString (heap h)) = false) :
    (visitFlagMerge doc heap fl) h = heap h := by
  rw [visitFlagMerge_eq]
  cases hdoc : docLookup doc fl.name with
  | none => rfl
  | some item =>
    by_cases hh : fl.holder = h
    · subst hh
      simp [hcase rfl]
    · have hne : h ≠ fl.holder := fun hc => hh hc.symm
      dsimp only
      split
      · simp [heapUpdate, hne]
      · rfl

theorem foldl_visitFlagMerge_keeps (doc : List (String × YamlValue)) (l : List FlagEntry) :
    ∀ (heap : Nat → FlagValue) (h : Nat),
    (∀ fl ∈ l, fl.holder = h → strEqFold fl.defValue (valueString (heap h)) = false) →
    (l.foldl (visitFlagMerge doc) heap) h = heap h := by
  induction l with
  | nil => intro heap h _; rfl
  | cons e rest ih =>
    intro heap h H
    have he : (visitFlagMerge doc heap e) h = heap h :=
      visitFlagMerge_untouched doc heap e h (H e (List.mem_cons_self e rest))
    have hrest : ∀ fl ∈ rest, fl.holder = h →
        strEqFold fl.defValue (valueString ((visitFlagMerge doc heap e) h)) = false := by
      intro fl hm hh
      rw [he]
      exact H fl (List.mem_cons_of_mem e hm) hh
    calc (List.foldl (visitFlagMerge doc) heap (e :: rest)) h
        = (List.foldl (visitFlagMerge doc) (visitFlagMerge doc heap e) rest) h := rfl
      _ = (visitFlagMerge doc heap e) h := ih (visitFlagMerge doc heap e) h hrest
      _ = heap h := he

/-- C1: the merge pass overwrites a flag's bound value with the document's
value exactly when the document contains the flag's registered name AND the
flag's current live string value equals its default string `DefValue`
case-insensitively; in particular a whole `VisitAll` merge leaves the bound
value of any flag whose live value differs (case-insensitively) from its
default unchanged, whatever the document contains (lines 151-172). -/
theorem merge_precedence :
    (∀ (doc : List (String × YamlValue)) (heap : Nat → FlagValue) (fl : FlagEntry)
        (item : YamlValue), docLookup doc fl.name = some item →
        strEqFold fl.defValue (valueString (heap fl.holder)) = true →
        visitFlagMerge doc heap fl =
          heapUpdate heap fl.holder (applyDocItem (heap fl.holder) item)) ∧
    (∀ (doc : List (String × YamlValue)) (heap : Nat → FlagValue) (fl : FlagEntry),
        strEqFold fl.defValue (valueString (heap fl.holder)) = false →
        visitFlagMerge doc heap fl = heap) ∧
    (∀ (doc : List (String × YamlValue)) (heap : Nat → FlagValue) (fl : FlagEntry),
        docLookup doc fl.name = none → visitFlagMerge doc heap fl = heap) ∧
    (∀ (doc : List (String × YamlValue)) (flags : List FlagEntry)
        (heap : Nat → FlagValue) (h : Nat),
        (∀ fl ∈ flags, fl.holder = h →
          strEqFold fl.defValue (valueString (heap h)) = false) →
        mergeVisitAll doc flags heap h = heap h) := by
  refine ⟨?_, ?_, ?_, ?_⟩
  · intro doc heap fl item hdoc heq
    rw [visitFlagMerge_eq, hdoc]
    simp [heq]
  · intro doc heap fl heq
    rw [visitFlagMerge_eq]
    cases hdoc : docLookup doc fl.name with
    | none => rfl
    | some item => simp [heq]
  · intro doc heap fl hdoc
    rw [visitFlagMerge_eq, hdoc]
  · intro doc flags heap h H
    unfold mergeVisitAll
    refine foldl_visitFlagMerge_keeps doc (visitAllOrder flags) heap h ?_
    intro fl hm
    exact H fl ((visitAllOrder_perm flags).mem_iff.mp hm)

theorem merge_precedence_witness :
    (visitFlagMerge [("a", YamlValue.str "v")] (fun _ => FlagValue.str "d")
        { name := "a", holder := 0, defValue := "d", usage := "u" } =
      heapUpdate (fun _ => FlagValue.str "d") 0
        (applyDocItem (FlagValue.str "d") (YamlValue.str "v"))) ∧
    (visitFlagMerge [("a", YamlValue.str "v")] (fun _ => FlagValue.str "x")
        { name := "a", holder := 0, defValue := "d", usage := "u" } =
      (fun _ => FlagValue.str "x")) ∧
    (mergeVisitAll [("a", YamlValue.str "v")]
        [{ name := "a", holder := 0, defValue := "d", usage := "u" }]
        (fun _ => FlagValue.str "cli") 0 = FlagValue.str "cli") :=
  ⟨merge_precedence.1 [("a", YamlValue.str "v")] (fun _ => FlagValue.str "d")
      { name := "a", holder := 0, defValue := "d", usage := "u" }
      (YamlValue.str "v") rfl (by decide),
   merge_precedence.2.1 [("a", YamlValue.str "v")] (fun _ => FlagValue.str "x")
      { name := "a", holder := 0, defValue := "d", usage := "u" } (by decide),
   merge_precedence.2.2.2 [("a", YamlValue.str "v")]
      [{ name := "a", holder := 0, defValue := "d", usage := "u" }]
      (fun _ => FlagValue.str "cli") 0 (by decide)⟩

/-! ### C5 — string-slice registration pre-populates defaults -/

/-- C5: `StringSliceVarP` first appends every default element to the slice
holder via its own `Set`, and only then registers with the primitive parser
(so the recorded `DefValue` is the populated slice's rendering); the
descriptor's default-value representation is the bracketed, comma-joined,
quoted element list — for an initially empty holder with defaults
`["a","b"]`, the bound slice is `["a","b"]` and the representation is
`["a", "b"]` (lines 295-311, 329-342). -/
theorem StringSliceVarP_defaults (fs : FlagSet) (st : GlobalState) (field : Nat)
    (long short usage : String) (defaultValue xs : List String)
    (hinit : st.heap field = FlagValue.strSlice xs) :
    (let p := StringSliceVarP fs st field long short defaultValue usage
     p.2.heap field = FlagValue.strSlice (xs ++ defaultValue) ∧
     p.2.flags = st.flags ++
       [{ name := short, holder := field,
          defValue := stringSliceString (xs ++ defaultValue), usage := usage },
        { name := long, holder := field,
          defValue := stringSliceString (xs ++ defaultValue), usage := usage }] ∧
     p.1.flagKeys.arena[fs.flagKeys.arena.length]? =
       some { usage := usage, short := short, long := long,
              defaultValue := .str (createStringArrayDefaultValue (xs ++ defaultValue)) }) ∧
    (xs = [] → defaultValue = ["a", "b"] →
      (StringSliceVarP fs st field long short defaultValue usage).2.heap field =
          FlagValue.strSlice ["a", "b"] ∧
      createStringArrayDefaultValue (xs ++ defaultValue) = "[\"a\", \"b\"]") := by
  have hfold : defaultValue.foldl (fun acc item => setValue acc item) (st.heap field) =
      FlagValue.strSlice (xs ++ defaultValue) := by
    rw [hinit, foldl_setValue_strSlice]
  have hmain :
      (let p := StringSliceVarP fs st field long short defaultValue usage
       p.2.heap field = FlagValue.strSlice (xs ++ defaultValue) ∧
       p.2.flags = st.flags ++
         [{ name := short, holder := field,
            defValue := stringSliceString (xs ++ defaultValue), usage := usage },
          { name := long, holder := field,
            defValue := stringSliceString (xs ++ defaultValue), usage := usage }] ∧
       p.1.flagKeys.arena[fs.flagKeys.arena.length]? =
         some { usage := usage, short := short, long := long,
                defaultValue := .str (createStringArrayDefaultValue (xs ++ defaultValue)) }) := by
    refine ⟨?_, ?_, ?_⟩
    · simp [StringSliceVarP, flagVar, heapUpdate, hfold]
    · simp [StringSliceVarP, flagVar, heapUpdate, hfold, valueString, asStringSlice]
    · simp [StringSliceVarP, flagVar, heapUpdate, hfold, asStringSlice,
            InsertionOrderedMap.Set, InsertionOrderedMap.alloc]
  refine ⟨hmain, ?_⟩
  intro hxs hdv
  subst hxs
  subst hdv
  exact ⟨hmain.1, by decide⟩

theorem StringSliceVarP_defaults_witness :
    ((StringSliceVarP NewFlagSet { flags := [], heap := fun _ => FlagValue.strSlice [] }
        0 "exclude" "e" ["a", "b"] "items to exclude").2.heap 0 =
      FlagValue.strSlice ["a", "b"]) ∧
    createStringArrayDefaultValue (([] : List String) ++ ["a", "b"]) = "[\"a\", \"b\"]" :=
  (StringSliceVarP_defaults NewFlagSet
      { flags := [], heap := fun _ => FlagValue.strSlice [] }
      0 "exclude" "e" "items to exclude" ["a", "b"] [] rfl).2 rfl rfl

/-! ### C9 — Marshal-mode serialization failure falls through -/

/-- C9: with `Marshal` set, generation first attempts structured
serialization of the map from every key to its descriptor's default value;
on success its bytes follow the header, and on failure generation falls
through to (and returns) exactly the commented output — the error is never
propagated and generation is a total function (lines 96-108). -/
theorem marshal_fallback (yamlMarshal : List (String × DefaultVal) → Except String String)
    (fs : FlagSet) (prog : String) (st : GlobalState) :
    (∀ bs, fs.Marshal = true → yamlMarshal (marshalMap fs) = Except.ok bs →
        generateDefaultConfig yamlMarshal fs prog st = headerStr prog ++ bs) ∧
    (∀ e, fs.Marshal = true → yamlMarshal (marshalMap fs) = Except.error e →
        generateDefaultConfig yamlMarshal fs prog st =
          generateDefaultConfig yamlMarshal { fs with Marshal := false } prog st) := by
  constructor
  · intro bs hM hok
    simp [generateDefaultConfig, hM, hok]
  · intro e hM herr
    simp [generateDefaultConfig, hM, herr]

theorem marshal_fallback_witness :
    (generateDefaultConfig (fun _ => Except.ok "x: 1\n")
        { NewFlagSet with Marshal := true } "app"
        { flags := [], heap := fun _ => FlagValue.str "" } =
      headerStr "app" ++ "x: 1\n") ∧
    (generateDefaultConfig (fun _ => Except.error "boom")
        { NewFlagSet with Marshal := true } "app"
        { flags := [], heap := fun _ => FlagValue.str "" } =
      generateDefaultConfig (fun _ => Except.error "boom")
        { { NewFlagSet with Marshal := true } with Marshal := false } "app"
        { flags := [], heap := fun _ => FlagValue.str "" }) :=
  ⟨(marshal_fallback (fun _ => Except.ok "x: 1\n") { NewFlagSet with Marshal := true }
      "app" { flags := [], heap := fun _ => FlagValue.str "" }).1 "x: 1\n" rfl rfl,
   (marshal_fallback (fun _ => Except.error "boom") { NewFlagSet with Marshal := true }
      "app" { flags := [], heap := fun _ => FlagValue.str "" }).2 "boom" rfl rfl⟩

/-! ### C3 — deduplicated rendering visits each unique flag once -/

theorem strFoldl_append (l : List String) :
    ∀ (x y : String), l.foldl (· ++ ·) (x ++ y) = x ++ l.foldl (· ++ ·) y := by
  induction l with
  | nil => intro x y; rfl
  | cons a l ih =>
    intro x y
    simp only [List.foldl_cons]
    rw [String.append_assoc, ih]

theorem stringJoin_cons (a : String) (l : List String) :
    String.join (a :: l) = a ++ String.join l := by
  show l.foldl (· ++ ·) ("" ++ a) = a ++ l.foldl (· ++ ·) ""
  have : ("" ++ a : String) = a ++ "" := by simp
  rw [this, strFoldl_append]

theorem dedupPairs_subset : ∀ (ps : List (String × flagData)) (seen : List flagData)
    (kd : String × flagData), kd ∈ dedupPairs ps seen → kd ∈ ps := by
  intro ps
  induction ps with
  | nil => intro seen kd h; simp [dedupPairs] at h
  | cons p rest ih =>
    obtain ⟨k, d⟩ := p
    intro seen kd h
    by_cases hd : d ∈ seen
    · simp only [dedupPairs, if_pos hd] at h
      exact List.mem_cons_of_mem _ (ih seen kd h)
    · simp only [dedupPairs, if_neg hd] at h
      rcases List.mem_cons.mp h with h1 | h2
      · rw [h1]; exact List.mem_cons_self _ _
      · exact List.mem_cons_of_mem _ (ih _ kd h2)

theorem count_dedupPairs_seen (d : flagData) : ∀ (ps : List (String × flagData))
    (seen : List flagData), d ∈ seen →
    List.count d ((dedupPairs ps seen).map Prod.snd) = 0 := by
  intro ps
  induction ps with
  | nil => intro seen _; simp [dedupPairs]
  | cons p rest ih =>
    obtain ⟨k, e⟩ := p
    intro seen hd
    by_cases he : e ∈ seen
    · simp only [dedupPairs, if_pos he]
      exact ih seen hd
    · have hne : e ≠ d := fun h => he (h ▸ hd)
      simp only [dedupPairs, if_neg he, List.map_cons, List.count_cons]
      rw [ih (e :: seen) (List.mem_cons_of_mem e hd)]
      simp [hne]

theorem count_dedupPairs_new (d : flagData) : ∀ (ps : List (String × flagData))
    (seen : List flagData), d ∈ ps.map Prod.snd → d ∉ seen →
    List.count d ((dedupPairs ps seen).map Prod.snd) = 1 := by
  intro ps
  induction ps with
  | nil => intro seen h _; simp at h
  | cons p rest ih =>
    obtain ⟨k, e⟩ := p
    intro seen hmem hnot
    have hmem' : d = e ∨ d ∈ rest.map Prod.snd := by simpa using hmem
    by_cases he : e ∈ seen
    · have hde : d ≠ e := fun h => hnot (h ▸ he)
      simp only [dedupPairs, if_pos he]
      refine ih seen ?_ hnot
      rcases hmem' with h | h
      · exact absurd h hde
      · exact h
    · simp only [dedupPairs, if_neg he, List.map_cons, List.count_cons]
      by_cases hde : e = d
      · subst hde
        rw [count_dedupPairs_seen e rest (e :: seen) (List.mem_cons_self e seen)]
        simp
      · have hd' : d ∈ rest.map Prod.snd := by
          rcases hmem' with h | h
          · exact absurd h.symm hde
          · exact h
        have hnot' : d ∉ e :: seen := by
          intro h
          rcases List.mem_cons.mp h with h1 | h2
          · exact hde h1.symm
          · exact hnot h2
        rw [ih (e :: seen) hd' hnot']
        simp [hde]

theorem configEntriesAux_join (heap : Nat → FlagValue) :
    ∀ (ps : List (String × flagData)) (seen : List flagData),
    configEntriesAux heap ps seen =
      String.join ((dedupPairs ps seen).map (fun kd => configEntryString kd.1 kd.2 heap)) := by
  intro ps
  induction ps with
  | nil => intro seen; rfl
  | cons p rest ih =>
    obtain ⟨k, e⟩ := p
    intro seen
    by_cases he : e ∈ seen
    · simp only [configEntriesAux, dedupPairs, if_pos he]
      exact ih seen
    · simp only [configEntriesAux, dedupPairs, if_neg he, List.map_cons, stringJoin_cons]
      rw [ih (e :: seen)]

/-- C3: both the usage renderer and the commented default-config generator
emit each unique logical flag exactly once: walking the ordered map in
order, a descriptor whose content hash was already emitted is skipped, so a
descriptor reachable from the map — even under two alias keys — occurs
exactly once among the rendered descriptors, and the generator's entry text
is exactly the concatenation of one entry per surviving descriptor
(lines 110-115, 354-361). -/
theorem renderers_visit_once (fs : FlagSet) (st : GlobalState) (d : flagData)
    (hd : d ∈ fs.flagKeys.forEachList.map Prod.snd) :
    List.count d (usageVisited fs) = 1 ∧
    List.count d (configEmitted fs) = 1 ∧
    configEntriesAux st.heap fs.flagKeys.forEachList [] =
      String.join ((dedupPairs fs.flagKeys.forEachList []).map
        (fun kd => configEntryString kd.1 kd.2 st.heap)) := by
  refine ⟨?_, ?_, configEntriesAux_join st.heap fs.flagKeys.forEachList []⟩
  · exact count_dedupPairs_new d fs.flagKeys.forEachList [] hd (by simp)
  · exact count_dedupPairs_new d fs.flagKeys.forEachList [] hd (by simp)

theorem renderers_visit_once_witness :
    (let fs := (StringVarP NewFlagSet { flags := [], heap := fun _ => FlagValue.str "" }
        0 "config" "c" "default.yaml" "config file").1
     List.count { usage := "config file", short := "c", long := "config",
                  defaultValue := .str "default.yaml" } (usageVisited fs) = 1 ∧
     List.count { usage := "config file", short := "c", long := "config",
                  defaultValue := .str "default.yaml" } (configEmitted fs) = 1 ∧
     configEntriesAux (fun _ => FlagValue.str "") fs.flagKeys.forEachList [] =
       String.join ((dedupPairs fs.flagKeys.forEachList []).map
         (fun kd => configEntryString kd.1 kd.2 (fun _ => FlagValue.str "")))) :=
  renderers_visit_once
    (StringVarP NewFlagSet { flags := [], heap := fun _ => FlagValue.str "" }
      0 "config" "c" "default.yaml" "config file").1
    { flags := [], heap := fun _ => FlagValue.str "" }
    { usage := "config file", short := "c", long := "config",
      defaultValue := .str "default.yaml" }
    (by decide)

/-! ### C10 — the commented config key is always the long name -/

theorem forEachList_set_two (m : InsertionOrderedMap) (d : flagData) (short long : String)
    (hwf : ∀ k ∈ m.keys, idxInArena m k = true)
    (hks : short ∉ m.keys) (hkl : long ∉ m.keys)
    (his : m.idx short = none) (hil : m.idx long = none) (hne : short ≠ long) :
    (((m.alloc d).1.Set short (m.alloc d).2).Set long (m.alloc d).2).forEachList =
      m.forEachList ++ [(short, d), (long, d)] := by
  have hnel : long ≠ short := Ne.symm hne
  have hkeys : (((m.alloc d).1.Set short (m.alloc d).2).Set long (m.alloc d).2).keys
      = (m.keys ++ [short]) ++ [long] := by
    simp [InsertionOrderedMap.alloc, InsertionOrderedMap.Set, his, hil, hnel]
  have hidx : ∀ k, (((m.alloc d).1.Set short (m.alloc d).2).Set long (m.alloc d).2).idx k
      = (if k = long then some m.arena.length else
         if k = short then some m.arena.length else m.idx k) := by
    intro k
    simp [InsertionOrderedMap.alloc, InsertionOrderedMap.Set]
  have harena : (((m.alloc d).1.Set short (m.alloc d).2).Set long (m.alloc d).2).arena
      = m.arena ++ [d] := by
    simp [InsertionOrderedMap.alloc, InsertionOrderedMap.Set]
  rw [InsertionOrderedMap.forEachList, hkeys]
  rw [List.filterMap_append, List.filterMap_append]
  have hold : List.filterMap (fun k =>
      ((((m.alloc d).1.Set short (m.alloc d).2).Set long (m.alloc d).2).idx k).bind
        (fun i => (((((m.alloc d).1.Set short (m.alloc d).2).Set long (m.alloc d).2).arena)[i]?).map
          (fun dd => (k, dd)))) m.keys = m.forEachList := by
    rw [InsertionOrderedMap.forEachList]
    refine List.filterMap_congr ?_
    intro k hk
    rw [hidx k, harena]
    have h1 : k ≠ long := fun h => hkl (h ▸ hk)
    have h2 : k ≠ short := fun h => hks (h ▸ hk)
    rw [if_neg h1, if_neg h2]
    cases hik : m.idx k with
    | none => rfl
    | some i =>
      have hlt : i < m.arena.length := by
        have := hwf k hk
        rw [idxInArena, hik] at this
        exact of_decide_eq_true this
      simp [List.getElem?_append_left hlt]
  rw [hold]
  have hshort : List.filterMap (fun k =>
      ((((m.alloc d).1.Set short (m.alloc d).2).Set long (m.alloc d).2).idx k).bind
        (fun i => (((((m.alloc d).1.Set short (m.alloc d).2).Set long (m.alloc d).2).arena)[i]?).map
          (fun dd => (k, dd)))) [short] = [(short, d)] := by
    simp only [List.filterMap_cons, List.filterMap_nil]
    rw [hidx short, harena, if_neg hne, if_pos rfl]
    simp [List.getElem?_concat_length]
  have hlong : List.filterMap (fun k =>
      ((((m.alloc d).1.Set short (m.alloc d).2).Set long (m.alloc d).2).idx k).bind
        (fun i => (((((m.alloc d).1.Set short (m.alloc d).2).Set long (m.alloc d).2).arena)[i]?).map
          (fun dd => (k, dd)))) [long] = [(long, d)] := by
    simp only [List.filterMap_cons, List.filterMap_nil]
    rw [hidx long, harena, if_pos rfl]
    simp [List.getElem?_concat_length]
  rw [hshort, hlong]
  simp

/-- C10: in commented default-config synthesis the key written for every
emitted flag is the descriptor's long name: the entry text does not depend
on the alias key the descriptor was visited under, it begins with the
commented usage line followed by the `#<long>: ` key line, and a dual-name
registration is indeed visited under its short key first (lines 117-127,
and 177-189 for the visit order). -/
theorem config_key_is_long_name :
    (∀ (k k' : String) (d : flagData) (heap : Nat → FlagValue),
        configEntryString k d heap = configEntryString k' d heap) ∧
    (∀ (k : String) (d : flagData) (heap : Nat → FlagValue),
        strStartsWith (configEntryString k d heap)
          ("# " ++ goToLower d.usage ++ "\n#" ++ d.long ++ ": ") = true) ∧
    (∀ (fs : FlagSet) (st : GlobalState) (field : Nat) (long short usage : String),
        (∀ kk ∈ fs.flagKeys.keys, idxInArena fs.flagKeys kk = true) →
        short ∉ fs.flagKeys.keys → long ∉ fs.flagKeys.keys →
        fs.flagKeys.idx short = none → fs.flagKeys.idx long = none →
        short ≠ long →
        (VarP fs st field long short usage).1.flagKeys.forEachList =
          fs.flagKeys.forEachList ++
            [(short, { usage := usage, short := short, long := long, defaultValue := .value field }),
             (long, { usage := usage, short := short, long := long, defaultValue := .value field })]) := by
  refine ⟨?_, ?_, ?_⟩
  · intro k k' d heap
    rfl
  · intro k d heap
    rw [strStartsWith]
    refine List.isPrefixOf_iff_prefix.mpr ?_
    refine ⟨((match d.defaultValue with
              | .str s => s
              | .value h => valueString (heap h)) ++ "\n\n").data, ?_⟩
    rw [configEntryString]
    simp [String.data_append, List.append_assoc]
  · intro fs st field long short usage hwf hks hkl his hil hne
    exact forEachList_set_two fs.flagKeys
      { usage := usage, short := short, long := long, defaultValue := .value field }
      short long hwf hks hkl his hil hne

theorem config_key_is_long_name_witness :
    (VarP NewFlagSet { flags := [], heap := fun _ => FlagValue.strSlice [] }
        7 "exclude" "e" "items").1.flagKeys.forEachList =
      NewFlagSet.flagKeys.forEachList ++
        [("e", { usage := "items", short := "e", long := "exclude", defaultValue := .value 7 }),
         ("exclude", { usage := "items", short := "e", long := "exclude", defaultValue := .value 7 })] :=
  config_key_is_long_name.2.2 NewFlagSet
    { flags := [], heap := fun _ => FlagValue.strSlice [] } 7 "exclude" "e" "items"
    (by decide) (by decide) (by decide) rfl rfl (by decide)

/-! ### Line structure of the commented document (towards C4 and C8) -/

theorem chLines_no_nl : ∀ (l : List Char), '\n' ∉ l → chLines l = [l] := by
  intro l
  induction l with
  | nil => intro _; rfl
  | cons c rest ih =>
    intro h
    have hc : c ≠ '\n' := fun hh => h (hh ▸ List.mem_cons_self c rest)
    have hrest : '\n' ∉ rest := fun hh => h (List.mem_cons_of_mem c hh)
    rw [chLines, if_neg hc, ih hrest]

theorem chLines_append_line : ∀ (a b : List Char), '\n' ∉ a →
    chLines (a ++ '\n' :: b) = a :: chLines b := by
  intro a
  induction a with
  | nil => intro b _; simp [chLines]
  | cons c a' ih =>
    intro b h
    have hc : c ≠ '\n' := fun hh => h (hh ▸ List.mem_cons_self c a')
    have ha' : '\n' ∉ a' := fun hh => h (List.mem_cons_of_mem c hh)
    rw [List.cons_append, chLines, if_neg hc, ih b ha']

theorem joinLinesCh_append (a b : List (List Char)) :
    joinLinesCh (a ++ b) = joinLinesCh a ++ joinLinesCh b := by
  simp [joinLinesCh]

theorem joinLinesCh_flatten (lls : List (List (List Char))) :
    joinLinesCh lls.flatten = (lls.map joinLinesCh).flatten := by
  induction lls with
  | nil => rfl
  | cons a ll ih =>
    rw [List.flatten_cons, joinLinesCh_append, ih]
    rfl

theorem chLines_joinLines : ∀ (ls : List (List Char)) (lastl : List Char),
    (∀ l ∈ ls, '\n' ∉ l) → '\n' ∉ lastl →
    chLines (joinLinesCh ls ++ lastl) = ls ++ [lastl] := by
  intro ls
  induction ls with
  | nil =>
    intro lastl _ hl
    simp only [joinLinesCh, List.map_nil, List.flatten_nil, List.nil_append]
    rw [chLines_no_nl lastl hl]
  | cons l ls' ih =>
    intro lastl hls hl
    have h1 : '\n' ∉ l := hls l (List.mem_cons_self _ _)
    have h2 : ∀ x ∈ ls', '\n' ∉ x := fun x hx => hls x (List.mem_cons_of_mem _ hx)
    have hsplit : joinLinesCh (l :: ls') ++ lastl = l ++ '\n' :: (joinLinesCh ls' ++ lastl) := by
      simp [joinLinesCh, List.append_assoc]
    rw [hsplit, chLines_append_line _ _ h1, ih lastl h2 hl]
    rfl

theorem stringJoin_data (l : List String) :
    (String.join l).data = (l.map String.data).flatten := by
  induction l with
  | nil => rfl
  | cons a l ih =>
    rw [stringJoin_cons, String.data_append, ih]
    rfl

theorem headerStr_data (prog : String) :
    (headerStr prog).data =
      joinLinesCh [("# " ++ prog ++ " config file").data,
        ("# generated by https://github.com/projectdiscovery/goflags").data, []] := by
  simp [headerStr, joinLinesCh, String.data_append, List.append_assoc]

theorem configEntryString_data (k : String) (d : flagData) (heap : Nat → FlagValue) :
    (configEntryString k d heap).data = joinLinesCh (configEntryLines d heap) := by
  cases hdv : d.defaultValue with
  | str s =>
    simp [configEntryString, configEntryLines, renderDefaultVal, hdv, joinLinesCh,
      String.data_append, List.append_assoc]
  | value h =>
    simp [configEntryString, configEntryLines, renderDefaultVal, hdv, joinLinesCh,
      String.data_append, List.append_assoc]

theorem modeB_buffer_data (fs : FlagSet) (st : GlobalState) (prog : String) :
    (headerStr prog ++ configEntriesAux st.heap fs.flagKeys.forEachList []).data =
      joinLinesCh (configDocLines fs st.heap prog) := by
  rw [String.data_append, headerStr_data, configEntriesAux_join, stringJoin_data]
  have hmaps : ((dedupPairs fs.flagKeys.forEachList []).map
        (fun kd => configEntryString kd.1 kd.2 st.heap)).map String.data =
      ((dedupPairs fs.flagKeys.forEachList []).map
        (fun kd => configEntryLines kd.2 st.heap)).map joinLinesCh := by
    rw [List.map_map, List.map_map]
    refine List.map_congr_left ?_
    intro kd _
    exact configEntryString_data kd.1 kd.2 st.heap
  rw [hmaps, ← joinLinesCh_flatten, configDocLines]
  have hsplit : ("# " ++ prog ++ " config file").data ::
      ("# generated by https://github.com/projectdiscovery/goflags").data :: ([] : List Char) ::
      ((dedupPairs fs.flagKeys.forEachList []).map
        (fun kd => configEntryLines kd.2 st.heap)).flatten =
      [("# " ++ prog ++ " config file").data,
       ("# generated by https://github.com/projectdiscovery/goflags").data, []] ++
      ((dedupPairs fs.flagKeys.forEachList []).map
        (fun kd => configEntryLines kd.2 st.heap)).flatten := rfl
  rw [hsplit, joinLinesCh_append]

theorem configDocLines_decomp (fs : FlagSet) (heap : Nat → FlagValue) (prog : String) :
    ∃ init lastl, configDocLines fs heap prog = init ++ [lastl, []] ∧ lastl ≠ [] := by
  rcases List.eq_nil_or_concat (dedupPairs fs.flagKeys.forEachList []) with h | ⟨front, kd, h⟩
  · refine ⟨[("# " ++ prog ++ " config file").data],
      ("# generated by https://github.com/projectdiscovery/goflags").data, ?_, by simp⟩
    rw [configDocLines, h]
    rfl
  · refine ⟨("# " ++ prog ++ " config file").data ::
        ("# generated by https://github.com/projectdiscovery/goflags").data ::
        ([] : List Char) ::
        ((front.map (fun p => configEntryLines p.2 heap)).flatten ++
          [("# " ++ goToLower kd.2.usage).data]),
      ("#" ++ kd.2.long ++ ": " ++ renderDefaultVal heap kd.2.defaultValue).data,
      ?_, by simp [String.data_append]⟩
    rw [configDocLines, h]
    simp [configEntryLines, List.append_assoc]

theorem configDocLines_ok (fs : FlagSet) (heap : Nat → FlagValue) (prog : String) :
    ∀ l ∈ configDocLines fs heap prog, l = [] ∨ l.head? = some '#' := by
  intro l hl
  rw [configDocLines] at hl
  rcases List.mem_cons.mp hl with h | hl1
  · right; rw [h]; simp [String.data_append]
  rcases List.mem_cons.mp hl1 with h | hl2
  · right; rw [h]; rfl
  rcases List.mem_cons.mp hl2 with h | hl3
  · left; exact h
  rcases List.mem_flatten.mp hl3 with ⟨ll, hll, hmem⟩
  rcases List.mem_map.mp hll with ⟨kd, _, hkd⟩
  rw [← hkd] at hmem
  rcases List.mem_cons.mp hmem with h | hm1
  · right; rw [h]; simp [String.data_append]
  rcases List.mem_cons.mp hm1 with h | hm2
  · right; rw [h]; simp [String.data_append]
  rcases List.mem_cons.mp hm2 with h | hm3
  · left; exact h
  · simp at hm3

theorem configDocLines_no_nl (fs : FlagSet) (heap : Nat → FlagValue) (prog : String)
    (hprog : noNewlineStr prog = true)
    (hfields : ∀ kd ∈ fs.flagKeys.forEachList,
      noNewlineStr (goToLower kd.2.usage) = true ∧ noNewlineStr kd.2.long = true ∧
      noNewlineStr (renderDefaultVal heap kd.2.defaultValue) = true) :
    ∀ l ∈ configDocLines fs heap prog, '\n' ∉ l := by
  have hprog' : '\n' ∉ prog.data := of_decide_eq_true hprog
  intro l hl
  rw [configDocLines] at hl
  rcases List.mem_cons.mp hl with h | hl1
  · rw [h]
    intro hmem
    simp only [String.data_append, List.mem_append] at hmem
    rcases hmem with (hc | hc) | hc
    · simp at hc
    · exact hprog' hc
    · simp at hc
  rcases List.mem_cons.mp hl1 with h | hl2
  · rw [h]
    decide
  rcases List.mem_cons.mp hl2 with h | hl3
  · rw [h]; simp
  rcases List.mem_flatten.mp hl3 with ⟨ll, hll, hmem⟩
  rcases List.mem_map.mp hll with ⟨kd, hkdd, hkd⟩
  have hkdmem : kd ∈ fs.flagKeys.forEachList := dedupPairs_subset _ _ kd hkdd
  obtain ⟨hu, hlg, hdv⟩ := hfields kd hkdmem
  have hu' : '\n' ∉ (goToLower kd.2.usage).data := of_decide_eq_true hu
  have hlg' : '\n' ∉ kd.2.long.data := of_decide_eq_true hlg
  have hdv' : '\n' ∉ (renderDefaultVal heap kd.2.defaultValue).data := of_decide_eq_true hdv
  rw [← hkd] at hmem
  rcases List.mem_cons.mp hmem with h | hm1
  · rw [h]
    intro hc
    simp only [String.data_append, List.mem_append] at hc
    rcases hc with hc | hc
    · simp at hc
    · exact hu' hc
  rcases List.mem_cons.mp hm1 with h | hm2
  · rw [h]
    intro hc
    simp only [String.data_append, List.mem_append] at hc
    rcases hc with ((hc | hc) | hc) | hc
    · simp at hc
    · exact hlg' hc
    · simp at hc
    · exact hdv' hc
  rcases List.mem_cons.mp hm2 with h | hm3
  · rw [h]; simp
  · simp at hm3

theorem modeB_generate_data (yamlMarshal : List (String × DefaultVal) → Except String String)
    (fs : FlagSet) (prog : String) (st : GlobalState) (hM : fs.Marshal = false)
    (init : List (List Char)) (lastl : List Char)
    (hdecomp : configDocLines fs st.heap prog = init ++ [lastl, []]) :
    (generateDefaultConfig yamlMarshal fs prog st).data = joinLinesCh init ++ lastl := by
  have hbuf : (headerStr prog ++ configEntriesAux st.heap fs.flagKeys.forEachList []).data
      = (joinLinesCh init ++ lastl) ++ ['\n', '\n'] := by
    rw [modeB_buffer_data, hdecomp, joinLinesCh_append]
    simp [joinLinesCh, List.append_assoc]
  have hgen : generateDefaultConfig yamlMarshal fs prog st =
      goTrimSuffix (headerStr prog ++ configEntriesAux st.heap fs.flagKeys.forEachList [])
        "\n\n" := by
    simp [generateDefaultConfig, hM]
  rw [hgen, goTrimSuffix, if_pos]
  · show (String.mk _).data = _
    rw [hbuf]
    have hlen : ((joinLinesCh init ++ lastl) ++ ['\n', '\n']).length - ("\n\n" : String).data.length
        = (joinLinesCh init ++ lastl).length := by
      simp
      omega
    rw [hlen, List.take_left]
  · rw [hbuf]
    exact List.isSuffixOf_iff_suffix.mpr ⟨joinLinesCh init ++ lastl, rfl⟩

theorem headerStr_split (prog : String) :
    headerStr prog = headerPrefixStr prog ++ "\n\n" := by
  have hlit : (" config file\n# generated by https://github.com/projectdiscovery/goflags\n\n" : String)
      = " config file\n# generated by https://github.com/projectdiscovery/goflags" ++ "\n\n" := by
    decide
  rw [headerStr, headerPrefixStr, hlit, ← String.append_assoc]

theorem startsWith_commented (fs : FlagSet) (st : GlobalState) (prog : String) :
    strStartsWith
      (goTrimSuffix (headerStr prog ++ configEntriesAux st.heap fs.flagKeys.forEachList []) "\n\n")
      (headerPrefixStr prog) = true := by
  rw [goTrimSuffix]
  split
  · rw [strStartsWith]
    refine List.isPrefixOf_iff_prefix.mpr ?_
    show (headerPrefixStr prog).data <+: List.take _ _
    refine List.prefix_take_iff.mpr ⟨?_, ?_⟩
    · rw [headerStr_split, String.data_append, String.data_append, List.append_assoc]
      exact List.prefix_append _ _
    · rw [headerStr_split]
      simp [String.data_append]
      omega
  · rw [strStartsWith]
    refine List.isPrefixOf_iff_prefix.mpr ?_
    rw [headerStr_split, String.data_append, String.data_append, List.append_assoc]
    exact List.prefix_append _ _

/-! ### C8 — header lines and the fate of the trailing newlines -/

/-- C8 is refuted as stated: for the empty registry the generated document
does not end with a newline at all — `bytes.TrimSuffix` removes the whole
trailing `"\n\n"`, it does not leave a single `"\n"`. -/
theorem generateDefaultConfig_trailing_cex :
    generateDefaultConfig (fun _ => Except.error "") NewFlagSet "app"
        { flags := [], heap := fun _ => FlagValue.str "" } =
      "# app config file\n# generated by https://github.com/projectdiscovery/goflags" ∧
    strEndsWith
      ("# app config file\n# generated by https://github.com/projectdiscovery/goflags") "\n"
      = false := by
  exact ⟨by decide, by decide⟩

/-- C8 amended: every generated document begins with the two comment header
lines naming the invoking program and the generating library; and in
commented mode (fields newline-free) the trailing `"\n\n"` is removed
entirely, so the document ends with no trailing newline — not a single one
(lines 91-93 and 132). -/
theorem header_and_full_trim :
    (∀ (yamlMarshal : List (String × DefaultVal) → Except String String)
        (fs : FlagSet) (prog : String) (st : GlobalState),
        strStartsWith (generateDefaultConfig yamlMarshal fs prog st)
          (headerPrefixStr prog) = true) ∧
    (∀ (yamlMarshal : List (String × DefaultVal) → Except String String)
        (fs : FlagSet) (prog : String) (st : GlobalState),
        fs.Marshal = false → noNewlineStr prog = true →
        (∀ kd ∈ fs.flagKeys.forEachList,
          noNewlineStr (goToLower kd.2.usage) = true ∧ noNewlineStr kd.2.long = true ∧
          noNewlineStr (renderDefaultVal st.heap kd.2.defaultValue) = true) →
        strEndsWith (generateDefaultConfig yamlMarshal fs prog st) "\n" = false) := by
  constructor
  · intro m fs prog st
    by_cases hM : fs.Marshal = true
    · cases hok : m (marshalMap fs) with
      | ok bs =>
        have hg : generateDefaultConfig m fs prog st = headerStr prog ++ bs := by
          simp [generateDefaultConfig, hM, hok]
        rw [hg, strStartsWith, headerStr_split, String.append_assoc]
        refine List.isPrefixOf_iff_prefix.mpr ?_
        rw [String.data_append]
        exact List.prefix_append _ _
      | error e =>
        have hg : generateDefaultConfig m fs prog st =
            goTrimSuffix
              (headerStr prog ++ configEntriesAux st.heap fs.flagKeys.forEachList [])
              "\n\n" := by
          simp [generateDefaultConfig, hM, hok]
        rw [hg]
        exact startsWith_commented fs st prog
    · have hg : generateDefaultConfig m fs prog st =
          goTrimSuffix
            (headerStr prog ++ configEntriesAux st.heap fs.flagKeys.forEachList [])
            "\n\n" := by
        simp [generateDefaultConfig, hM]
      rw [hg]
      exact startsWith_commented fs st prog
  · intro m fs prog st hM hprog hfields
    obtain ⟨init, lastl, hdecomp, hne⟩ := configDocLines_decomp fs st.heap prog
    have hnl := configDocLines_no_nl fs st.heap prog hprog hfields
    have hlast : '\n' ∉ lastl := by
      refine hnl lastl ?_
      rw [hdecomp]
      exact List.mem_append_right _ (List.mem_cons_self _ _)
    have hdata := modeB_generate_data m fs prog st hM init lastl hdecomp
    rw [strEndsWith]
    cases hs : List.isSuffixOf ("\n" : String).data
        (generateDefaultConfig m fs prog st).data with
    | false => rfl
    | true =>
      exfalso
      obtain ⟨t, ht⟩ := List.isSuffixOf_iff_suffix.mp hs
      rw [hdata] at ht
      have h1 : (joinLinesCh init ++ lastl).getLast? = some '\n' := by
        rw [← ht]
        exact List.getLast?_concat t
      have h2 : lastl.getLast? = some '\n' := by
        rw [List.getLast?_append] at h1
        cases hgl : lastl.getLast? with
        | none =>
          have hsome := List.getLast?_isSome.mpr hne
          rw [hgl] at hsome
          simp at hsome
        | some c =>
          rw [hgl] at h1
          simpa using h1
      exact hlast (List.mem_of_mem_getLast? h2)

theorem header_and_full_trim_witness :
    strStartsWith (generateDefaultConfig (fun _ => Except.error "") NewFlagSet "app"
        { flags := [], heap := fun _ => FlagValue.str "" }) (headerPrefixStr "app") = true ∧
    strEndsWith (generateDefaultConfig (fun _ => Except.error "") NewFlagSet "app"
        { flags := [], heap := fun _ => FlagValue.str "" }) "\n" = false :=
  ⟨header_and_full_trim.1 (fun _ => Except.error "") NewFlagSet "app"
      { flags := [], heap := fun _ => FlagValue.str "" },
   header_and_full_trim.2 (fun _ => Except.error "") NewFlagSet "app"
      { flags := [], heap := fun _ => FlagValue.str "" } rfl (by decide) (by decide)⟩

/-! ### C4 — the round trip -/

/-- C4 is refuted as stated: with `Marshal` set, a registry holding one
string-slice flag with defaults `["a","b"]` and no command-line overrides
does NOT round-trip — merging the freshly generated document back appends
the bracketed default representation to the slice as a new element. -/
theorem roundTrip_marshal_cex :
    c4Reg.2.heap 0 = FlagValue.strSlice ["a", "b"] ∧
    (readConfigFile
        (generateDefaultConfig c4Marshal { c4Reg.1 with Marshal := true } "app" c4Reg.2)
        c4Reg.2).1.heap 0 =
      FlagValue.strSlice ["a", "b", "[\"a\", \"b\"]"] := by
  exact ⟨by decide, by decide⟩

/-- C4 amended: with commented (non-Marshal) generation and newline-free
fields, merging the freshly generated document back leaves the parser state
exactly unchanged — the all-commented document decodes as empty (EOF), the
merge reports the wrapped decode failure, and every bound value therefore
remains at its compiled-in default. With `Marshal` set the round trip fails
for string-slice flags (see the counterexample). -/
theorem roundTrip_commented (yamlMarshal : List (String × DefaultVal) → Except String String)
    (fs : FlagSet) (prog : String) (st : GlobalState)
    (hM : fs.Marshal = false)
    (hprog : noNewlineStr prog = true)
    (hfields : ∀ kd ∈ fs.flagKeys.forEachList,
      noNewlineStr (goToLower kd.2.usage) = true ∧ noNewlineStr kd.2.long = true ∧
      noNewlineStr (renderDefaultVal st.heap kd.2.defaultValue) = true) :
    readConfigFile (generateDefaultConfig yamlMarshal fs prog st) st =
      (st, some "could not unmarshal config file: EOF") := by
  obtain ⟨init, lastl, hdecomp, _⟩ := configDocLines_decomp fs st.heap prog
  have hnl := configDocLines_no_nl fs st.heap prog hprog hfields
  have hinit : ∀ l ∈ init, '\n' ∉ l := by
    intro l hl
    refine hnl l ?_
    rw [hdecomp]
    exact List.mem_append_left _ hl
  have hlast : '\n' ∉ lastl := by
    refine hnl lastl ?_
    rw [hdecomp]
    exact List.mem_append_right _ (List.mem_cons_self _ _)
  have hdata := modeB_generate_data yamlMarshal fs prog st hM init lastl hdecomp
  have hchl : chLines ((generateDefaultConfig yamlMarshal fs prog st).data)
      = init ++ [lastl] := by
    rw [hdata]
    exact chLines_joinLines init lastl hinit hlast
  have hparse : ∀ l ∈ init ++ [lastl], parseLine l = none := by
    intro l hl
    have hmem : l ∈ configDocLines fs st.heap prog := by
      rw [hdecomp]
      rcases List.mem_append.mp hl with h | h
      · exact List.mem_append_left _ h
      · rcases List.mem_cons.mp h with h1 | h2
        · rw [h1]
          exact List.mem_append_right _ (List.mem_cons_self _ _)
        · simp at h2
    rcases configDocLines_ok fs st.heap prog l hmem with h | h
    · rw [h]; rfl
    · cases l with
      | nil => rfl
      | cons c t =>
        have hc : c = '#' := by simpa using h
        simp [parseLine, hc]
  have hps : (chLines ((generateDefaultConfig yamlMarshal fs prog st).data)).filterMap parseLine
      = [] := by
    rw [hchl]
    exact List.filterMap_eq_nil_iff.mpr hparse
  have hdec : decodeYaml (generateDefaultConfig yamlMarshal fs prog st) = Except.error "EOF" := by
    rw [decodeYaml, hps]
    rfl
  rw [readConfigFile, hdec]
  rfl

theorem roundTrip_commented_witness :
    readConfigFile
        (generateDefaultConfig (fun _ => Except.error "")
          (StringVarP NewFlagSet { flags := [], heap := fun _ => FlagValue.str "" }
            0 "config" "c" "default.yaml" "the config file").1 "app"
          (StringVarP NewFlagSet { flags := [], heap := fun _ => FlagValue.str "" }
            0 "config" "c" "default.yaml" "the config file").2)
        (StringVarP NewFlagSet { flags := [], heap := fun _ => FlagValue.str "" }
          0 "config" "c" "default.yaml" "the config file").2 =
      ((StringVarP NewFlagSet { flags := [], heap := fun _ => FlagValue.str "" }
          0 "config" "c" "default.yaml" "the config file").2,
       some "could not unmarshal config file: EOF") :=
  roundTrip_commented (fun _ => Except.error "")
    (StringVarP NewFlagSet { flags := [], heap := fun _ => FlagValue.str "" }
      0 "config" "c" "default.yaml" "the config file").1 "app"
    (StringVarP NewFlagSet { flags := [], heap := fun _ => FlagValue.str "" }
      0 "config" "c" "default.yaml" "the config file").2
    rfl (by decide) (by decide)

end Goflags
